import Mathlib

/-!
# Verification of the blind-signature e-cash core (Lab 5)

Shallow embedding of `src/Lab 5/coin.js` and `src/Lab 5/driver.js`.

Byte strings (Node `Buffer`s) are modelled as `List Nat` (each entry a byte
value), JavaScript strings as Lean `String`s, and fallible operations
(JavaScript `throw`) as `Except String`.

The repository files `utils.js` (hash, makeGUID, makeOTP, decryptOTP,
randInt) and the external `blind-signatures` npm library are not part of
the two source files, so they are modelled from the spec: the hash, the
guid, the per-index OTP keys, the random left/right choices and the
blind/unblind/verify primitives are parameters of the embedding, with the
XOR behaviour of the OTP (`ciphertext = plaintext XOR key`,
`decrypt = XOR over the overlapping length`) taken from the spec's
external-interface contract.
-/

/-- Constant `COIN_RIS_LENGTH` from coin.js (the security parameter K). -/
def COIN_RIS_LENGTH : Nat := 20

/-- Constant `IDENT_STR` from coin.js. -/
def IDENT_STR : String := "IDENT"

/-- Constant `BANK_STR` from coin.js. -/
def BANK_STR : String := "ELECTRONIC_PIGGYBANK"

/-- Modelled from the spec: `Buffer.from(string)` for ASCII strings — each
character becomes its code-point byte.  (`utils.js` is not in src/.) -/
def strToBytes (s : String) : List Nat := s.data.map Char.toNat

/-- Modelled from the spec: `buffer.toString()` for byte values that are
valid code points — each byte becomes the corresponding character. -/
def bytesToStr (l : List Nat) : String := String.mk (l.map Char.ofNat)

/-- One hexadecimal digit character (lowercase), as Node's hex encoding
produces. -/
def hexDigitChar (n : Nat) : Char := Char.ofNat (if n < 10 then 48 + n else 87 + n)

/-- Hex encoding of one byte: two lowercase hex digits. -/
def hexByte (b : Nat) : List Char := [hexDigitChar (b / 16), hexDigitChar (b % 16)]

/-- Modelled from the spec: `buffer.toString('hex')` — the RIS disclosure
encoding (each disclosed value is hex-encoded by `acceptCoin`). -/
def hexEncode (l : List Nat) : String := String.mk (l.map hexByte).flatten

/-- Value of one hex digit character, or `none` when the character is not a
hex digit. -/
def hexDigitVal? (c : Char) : Option Nat :=
  if 48 ≤ c.toNat ∧ c.toNat ≤ 57 then some (c.toNat - 48)
  else if 97 ≤ c.toNat ∧ c.toNat ≤ 102 then some (c.toNat - 87)
  else if 65 ≤ c.toNat ∧ c.toNat ≤ 70 then some (c.toNat - 55)
  else none

/-- Modelled from the spec: `Buffer.from(s, 'hex')` — decodes pairs of hex
digits and stops at the first character pair that is not valid hex (Node
semantics: invalid input truncates, it does not throw). -/
def hexDecodeList : List Char → List Nat
  | c1 :: c2 :: rest =>
    match hexDigitVal? c1, hexDigitVal? c2 with
    | some h1, some h2 => (16 * h1 + h2) :: hexDecodeList rest
    | _, _ => []
  | _ => []

/-- `Buffer.from(s, 'hex')` on a string. -/
def hexDecode (s : String) : List Nat := hexDecodeList s.data

/-- Modelled from the spec: the OTP ciphertext, `plaintext XOR key`
(`utils.makeOTP` draws `key` randomly; the key is an input here). -/
def otpCipher (pt key : List Nat) : List Nat := List.zipWith (fun a b => a ^^^ b) pt key

/-- Modelled from the spec: `utils.decryptOTP` — XOR of key and ciphertext
over the overlapping length. -/
def decryptOTP (key ct : List Nat) : List Nat := List.zipWith (fun a b => a ^^^ b) key ct

/-- Helper for `jsSplit`: accumulates the current field (reversed) and cuts
at each separator. -/
def splitCharAux (sep : Char) : List Char → List Char → List (List Char)
  | [], acc => [acc.reverse]
  | c :: cs, acc =>
    if c = sep then acc.reverse :: splitCharAux sep cs []
    else splitCharAux sep cs (c :: acc)

/-- JavaScript `s.split(sep)` for a one-character separator: fields between
separator occurrences, empty fields kept (`"".split(x) = [""]`). -/
def jsSplit (s : String) (sep : Char) : List String :=
  (splitCharAux sep s.data []).map String.mk

/-- JavaScript `array.join(',')` on a list of strings. -/
def joinComma : List String → String
  | [] => ""
  | [s] => s
  | s :: rest => s ++ "," ++ joinComma rest

/-- JavaScript `s.startsWith(pat)`: Boolean test that `pat`'s characters
begin `s`. -/
def startsWithData : List Char → List Char → Bool
  | _, [] => true
  | [], _ :: _ => false
  | c :: cs, p :: ps => p = c && startsWithData cs ps

/-- `s.startsWith(pat)` on strings. -/
def startsWithStr (s pat : String) : Bool := startsWithData s.data pat.data

/-- The state of a `Coin` object from coin.js after construction.  Big
integers from the blind-signature library are modelled as `Nat`; fields that
are absent until set (`blinded`, `blindingFactor`, `signature`) are
`Option Nat`, `none` meaning the JavaScript property is `undefined`. -/
structure Coin where
  amount : Nat
  n : String
  e : String
  guid : String
  leftIdent : List (List Nat)
  rightIdent : List (List Nat)
  coinString : String
  blinded : Option Nat
  blindingFactor : Option Nat
  signature : Option Nat
deriving DecidableEq

/-- The external inputs of coin construction that the two source files do
not define.  Modelled from the spec: `hash` is the hash primitive of
utils.js, `guid` the value returned by `utils.makeGUID()`, `keys i` the
random key drawn by `utils.makeOTP` at loop index `i`, and `blindPrim`
the `blind-signatures` blind operation `(message, N, E) ↦ (blinded, r)`. -/
structure Env where
  hash : List Nat → String
  guid : String
  keys : Nat → List Nat
  blindPrim : String → String → String → Nat × Nat

/-- The OTP plaintext `"IDENT:" + purchaser` used at construction, as
bytes. -/
def identPlain (purchaser : String) : List Nat := strToBytes (IDENT_STR ++ ":" ++ purchaser)

/-- The coin state built by the body of the `Coin` constructor (after the
parameter check): `leftIdent[i]` is the i-th OTP key, `rightIdent[i]` the
i-th OTP ciphertext, `coinString` the dash-joined commitment string, and
blinding runs immediately.  The constructor's truthiness checks on the OTP
and blinding outputs never fire (Buffers and BigIntegers are truthy
objects), so they are not modelled. -/
def buildCoin (env : Env) (purchaser : String) (amount : Nat) (n e : String) : Coin :=
  let pt := identPlain purchaser
  let leftIdent := (List.range COIN_RIS_LENGTH).map env.keys
  let rightIdent := (List.range COIN_RIS_LENGTH).map (fun i => otpCipher pt (env.keys i))
  let cs := BANK_STR ++ "-" ++ Nat.repr amount ++ "-" ++ env.guid ++ "-" ++
    joinComma (leftIdent.map env.hash) ++ "-" ++ joinComma (rightIdent.map env.hash)
  { amount := amount, n := n, e := e, guid := env.guid,
    leftIdent := leftIdent, rightIdent := rightIdent, coinString := cs,
    blinded := some (env.blindPrim cs n e).1,
    blindingFactor := some (env.blindPrim cs n e).2,
    signature := none }

/-- The `Coin` constructor: the check `!purchaser || !amount || !n || !e`
(JavaScript falsiness of the expected types: empty string, zero) throws
`Missing required coin parameters`; otherwise the coin state is built. -/
def mkCoin (env : Env) (purchaser : String) (amount : Nat) (n e : String) :
    Except String Coin :=
  if purchaser = "" ∨ amount = 0 ∨ n = "" ∨ e = "" then
    .error "Missing required coin parameters"
  else .ok (buildCoin env purchaser amount n e)

/-- `Coin.getRis(isLeft, i)`: throws when `i < 0` or `i >= COIN_RIS_LENGTH`,
else returns `leftIdent[i]` or `rightIdent[i]`.  The index is an `Int` so
that negative JavaScript indices are representable. -/
def Coin.getRis (c : Coin) (isLeft : Bool) (i : Int) : Except String (List Nat) :=
  if i < 0 ∨ (COIN_RIS_LENGTH : Int) ≤ i then
    .error ("RIS index out of bounds: " ++ toString i)
  else .ok ((if isLeft then c.leftIdent else c.rightIdent).getD i.toNat [])

/-- `Coin.unblind()`: throws (with the constructor's wrapping) when
`signature` is unset; otherwise replaces `signature` with the library's
unblind result.  `unblindPrim` models `blindSignatures.unblind` applied to
`(signed, N, r)`; the post-assignment falsiness check never fires because
the library returns a (truthy) BigInteger object. -/
def Coin.unblind (unblindPrim : Nat → String → Option Nat → Nat) (c : Coin) :
    Except String Coin :=
  match c.signature with
  | none => .error "Unblinding failed: No signature to unblind"
  | some s => .ok { c with signature := some (unblindPrim s c.n c.blindingFactor) }

/-- `parseCoin(s)` from driver.js: split on dash, destructure the first five
parts, check the bank tag, split the two hash fields on comma.  When fewer
than five dash-separated parts exist the JavaScript destructuring yields
`undefined` and `undefined.split` throws a TypeError, modelled as the last
error case. -/
def parseCoin (s : String) : Except String (List String × List String) :=
  if (jsSplit s '-').getD 0 "" ≠ BANK_STR then
    .error ("Invalid identity string: " ++ (jsSplit s '-').getD 0 "" ++
      " received, but " ++ BANK_STR ++ " expected")
  else
    match (jsSplit s '-')[3]?, (jsSplit s '-')[4]? with
    | some lh, some rh => .ok (jsSplit lh ',', jsSplit rh ',')
    | _, _ => .error "TypeError: cannot split undefined"

/-- The disclosure loop of `acceptCoin`: at each index draw the side
(`flips i` is `randInt(2) === 0`, i.e. `true` means left), fetch the RIS
value, compare its hash with the parsed commitment hash (an out-of-range
parsed list yields JavaScript `undefined`, which never equals a hash
string), and push the hex encoding. -/
def risLoop (h : List Nat → String) (flips : Nat → Bool) (c : Coin)
    (lh rh : List String) : List Nat → Except String (List String)
  | [] => .ok []
  | i :: rest =>
    match c.getRis (flips i) (Int.ofNat i) with
    | .error m => .error m
    | .ok r =>
      if (if flips i then lh else rh)[i]? ≠ some (h r) then
        .error ("RIS hash mismatch at position " ++ Nat.repr i)
      else
        match risLoop h flips c lh rh rest with
        | .error m => .error m
        | .ok tl => .ok (hexEncode r :: tl)

/-- `acceptCoin(coin)` from driver.js: verify the signature with the
external primitive (`verifyPrim` models `blindSignatures.verify` applied to
`(unblinded, N, E, message)` — driver.js uses the bank's global `N`, `E`),
parse the commitment string, then run the disclosure loop over indices
`0..COIN_RIS_LENGTH-1`. -/
def acceptCoin (verifyPrim : Option Nat → String → String → String → Bool)
    (h : List Nat → String) (flips : Nat → Bool)
    (bankN bankE : String) (c : Coin) : Except String (List String) :=
  if verifyPrim c.signature bankN bankE c.coinString = false then
    .error "Invalid coin signature"
  else
    match parseCoin c.coinString with
    | .error m => .error m
    | .ok (lh, rh) => risLoop h flips c lh rh (List.range COIN_RIS_LENGTH)

/-- Outcome of `determineCheater` (reported via `console.log` in the
driver).  `purchaserCheated` carries `split(':')[1]`, which is `undefined`
(`none`) when the decoded string has no colon. -/
inductive Outcome where
  | merchantCheated : Outcome
  | purchaserCheated : Option String → Outcome
  | undetermined : Outcome
deriving DecidableEq

/-- The index loop of `determineCheater`: at index `i`, hex-decode both
report entries, skip on unequal decoded lengths, XOR-decrypt, and if the
result starts with `IDENT` report the purchaser (`split(':')[1]`).  An
out-of-range access on `ris2` makes `Buffer.from(undefined,'hex')` throw a
TypeError that the loop's `catch` turns into `continue`, modelled by the
final case. -/
def cheaterLoop (r1 r2 : List String) : List Nat → Outcome
  | [] => .undetermined
  | i :: rest =>
    match r1[i]?, r2[i]? with
    | some a, some b =>
      if (hexDecode a).length ≠ (hexDecode b).length then cheaterLoop r1 r2 rest
      else
        if startsWithStr (bytesToStr (decryptOTP (hexDecode a) (hexDecode b))) IDENT_STR then
          .purchaserCheated (jsSplit (bytesToStr (decryptOTP (hexDecode a) (hexDecode b))) ':')[1]?
        else cheaterLoop r1 r2 rest
    | _, _ => cheaterLoop r1 r2 rest

/-- `determineCheater(guid, ris1, ris2)` from driver.js.  The identity test
`JSON.stringify(ris1) === JSON.stringify(ris2)` holds exactly when the two
string arrays are element-wise equal (JSON escaping makes stringify
injective on arrays of strings), modelled as list equality; otherwise the
index loop runs over `0..ris1.length-1`. -/
def determineCheater (guid : String) (ris1 ris2 : List String) : Outcome :=
  if ris1 = ris2 then .merchantCheated
  else cheaterLoop ris1 ris2 (List.range ris1.length)

/-- The value disclosed at index `j` when the merchant's coin flip is
`flip` (`true` = left): the OTP key, or the OTP ciphertext. -/
def disclosed (env : Env) (purchaser : String) (flip : Bool) (j : Nat) : List Nat :=
  if flip then env.keys j else otpCipher (identPlain purchaser) (env.keys j)

/-- The RIS report produced by a successful `acceptCoin` run whose side
choices are `flips`: the hex encodings of the disclosed values, in index
order. -/
def report (env : Env) (purchaser : String) (flips : Nat → Bool) : List String :=
  (List.range COIN_RIS_LENGTH).map fun j => hexEncode (disclosed env purchaser (flips j) j)

/-- A concrete environment for witnesses: constant hash output `"00"`,
guid `"abc"`, and every OTP key the 11-byte list of ones (11 is the byte
length of `"IDENT:alice"`). -/
def aliceEnv : Env :=
  { hash := fun _ => "00", guid := "abc", keys := fun _ => List.replicate 11 1,
    blindPrim := fun _ _ _ => (1, 1) }

/-- The coin constructed from `aliceEnv` for purchaser `"alice"`. -/
def aliceCoin : Coin := buildCoin aliceEnv "alice" 20 "55" "3"

/-- A concrete environment whose OTP keys are all zero bytes (a possible
random draw), sized for the 9-byte plaintext `"IDENT:a:b"`. -/
def zeroKeyEnv : Env :=
  { hash := fun _ => "00", guid := "abc", keys := fun _ => List.replicate 9 0,
    blindPrim := fun _ _ _ => (1, 1) }

/-- The coin constructed from `zeroKeyEnv` for the purchaser identity
`"a:b"`, which contains a colon. -/
def cexCoin : Coin := buildCoin zeroKeyEnv "a:b" 20 "55" "3"

/-- An all-left RIS report for `cexCoin`. -/
def cexR1 : List String := report zeroKeyEnv "a:b" (fun _ => true)

/-- An all-right RIS report for `cexCoin`. -/
def cexR2 : List String := report zeroKeyEnv "a:b" (fun _ => false)

/-- Hex digits decode back to their value. -/
theorem hexDigitVal?_hexDigitChar : ∀ d, d < 16 → hexDigitVal? (hexDigitChar d) = some d := by
  decide

/-- Decoding a hex-encoded byte consumes exactly that byte. -/
theorem hexDecodeList_hexByte (b : Nat) (hb : b < 256) (rest : List Char) :
    hexDecodeList (hexByte b ++ rest) = b :: hexDecodeList rest := by
  have h1 : b / 16 < 16 := Nat.div_lt_of_lt_mul (by omega)
  have h2 : b % 16 < 16 := Nat.mod_lt _ (by norm_num)
  have e1 := hexDigitVal?_hexDigitChar _ h1
  have e2 := hexDigitVal?_hexDigitChar _ h2
  simp only [hexByte, List.cons_append, List.nil_append, hexDecodeList, e1, e2]
  exact congrArg (· :: hexDecodeList rest) (Nat.div_add_mod b 16)

/-- Hex round trip: decoding the hex encoding of a byte list recovers the
list, provided every entry is a byte. -/
theorem hexDecode_hexEncode : ∀ l : List Nat, (∀ b ∈ l, b < 256) →
    hexDecode (hexEncode l) = l
  | [], _ => rfl
  | b :: t, h => by
    have hb : b < 256 := h b (List.mem_cons_self b t)
    have ih := hexDecode_hexEncode t (fun x hx => h x (List.mem_cons_of_mem b hx))
    show hexDecodeList (((b :: t).map hexByte).flatten) = b :: t
    rw [List.map_cons, List.flatten_cons, hexDecodeList_hexByte b hb]
    exact congrArg (b :: ·) ih

/-- XOR of a list with itself is all zeroes. -/
theorem decryptOTP_self : ∀ l : List Nat, decryptOTP l l = l.map (fun _ => 0)
  | [] => rfl
  | b :: t => by
    simp only [decryptOTP, List.zipWith_cons_cons, List.map_cons, Nat.xor_self]
    exact congrArg (0 :: ·) (decryptOTP_self t)

/-- OTP decryption with the key on the left recovers the plaintext. -/
theorem decryptOTP_key_cipher : ∀ pt key : List Nat, key.length = pt.length →
    decryptOTP key (otpCipher pt key) = pt
  | [], [], _ => rfl
  | [], _ :: _, h => by simp at h
  | _ :: _, [], h => by simp at h
  | p :: pt, k :: kt, h => by
    simp only [List.length_cons, Nat.succ.injEq] at h
    simp only [otpCipher, decryptOTP, List.zipWith_cons_cons]
    have hx : k ^^^ (p ^^^ k) = p := by
      rw [Nat.xor_comm p k, ← Nat.xor_assoc, Nat.xor_self, Nat.zero_xor]
    rw [hx]
    exact congrArg (p :: ·) (decryptOTP_key_cipher pt kt h)

/-- OTP decryption with the key on the right also recovers the plaintext. -/
theorem decryptOTP_cipher_key : ∀ pt key : List Nat, key.length = pt.length →
    decryptOTP (otpCipher pt key) key = pt
  | [], [], _ => rfl
  | [], _ :: _, h => by simp at h
  | _ :: _, [], h => by simp at h
  | p :: pt, k :: kt, h => by
    simp only [List.length_cons, Nat.succ.injEq] at h
    simp only [otpCipher, decryptOTP, List.zipWith_cons_cons]
    have hx : (p ^^^ k) ^^^ k = p := by
      rw [Nat.xor_assoc, Nat.xor_self, Nat.xor_zero]
    rw [hx]
    exact congrArg (p :: ·) (decryptOTP_cipher_key pt kt h)

/-- Byte/string round trip. -/
theorem bytesToStr_strToBytes (s : String) : bytesToStr (strToBytes s) = s := by
  simp [strToBytes, bytesToStr, List.map_map, Function.comp_def, Char.ofNat_toNat]

/-- A string starts with any of its leading segments. -/
theorem startsWithData_append : ∀ l rest : List Char, startsWithData (l ++ rest) l = true
  | [], rest => by cases rest <;> rfl
  | c :: t, rest => by
    have ih := startsWithData_append t rest
    simp [startsWithData, ih]

/-- String-level version of `startsWithData_append`. -/
theorem startsWithStr_append (pre post : String) : startsWithStr (pre ++ post) pre = true := by
  show startsWithData (pre ++ post).data pre.data = true
  rw [String.data_append]
  exact startsWithData_append _ _

/-- A string whose first character differs from the pattern's first
character does not start with the pattern. -/
theorem startsWithData_ne (c p : Char) (cs ps : List Char) (h : p ≠ c) :
    startsWithData (c :: cs) (p :: ps) = false := by
  simp [startsWithData, h]

/-- Splitting a separator-free character list yields one field. -/
theorem splitCharAux_of_not_mem (sep : Char) : ∀ (l acc : List Char), sep ∉ l →
    splitCharAux sep l acc = [acc.reverse ++ l]
  | [], acc, _ => by simp [splitCharAux]
  | c :: cs, acc, h => by
    have hc : ¬c = sep := fun e => h (e ▸ List.mem_cons_self c cs)
    have ih := splitCharAux_of_not_mem sep cs (c :: acc) fun m => h (List.mem_cons_of_mem _ m)
    simp only [splitCharAux, hc, if_false, ih, List.reverse_cons, List.append_assoc,
      List.singleton_append]

/-- Splitting cuts at the first separator after a separator-free field. -/
theorem splitCharAux_append (sep : Char) : ∀ (l₁ l₂ acc : List Char), sep ∉ l₁ →
    splitCharAux sep (l₁ ++ sep :: l₂) acc = (acc.reverse ++ l₁) :: splitCharAux sep l₂ []
  | [], l₂, acc, _ => by simp [splitCharAux]
  | c :: cs, l₂, acc, h => by
    have hc : ¬c = sep := fun e => h (e ▸ List.mem_cons_self c cs)
    have ih := splitCharAux_append sep cs l₂ (c :: acc) fun m => h (List.mem_cons_of_mem _ m)
    show splitCharAux sep (c :: (cs ++ sep :: l₂)) acc = _
    simp only [splitCharAux, hc, if_false, ih, List.reverse_cons, List.append_assoc,
      List.singleton_append]

/-- Splitting a five-field dash-joined string recovers the five fields when
no field contains a dash. -/
theorem jsSplit_five (f1 f2 f3 f4 f5 : String)
    (h1 : '-' ∉ f1.data) (h2 : '-' ∉ f2.data) (h3 : '-' ∉ f3.data)
    (h4 : '-' ∉ f4.data) (h5 : '-' ∉ f5.data) :
    jsSplit (f1 ++ "-" ++ f2 ++ "-" ++ f3 ++ "-" ++ f4 ++ "-" ++ f5) '-' =
      [f1, f2, f3, f4, f5] := by
  have hdata : (f1 ++ "-" ++ f2 ++ "-" ++ f3 ++ "-" ++ f4 ++ "-" ++ f5).data
      = f1.data ++ '-' :: (f2.data ++ '-' :: (f3.data ++ '-' :: (f4.data ++ '-' :: f5.data))) := by
    simp [String.data_append, List.append_assoc]
  show (splitCharAux '-' _ []).map String.mk = _
  rw [hdata, splitCharAux_append '-' f1.data _ [] h1,
    splitCharAux_append '-' f2.data _ [] h2, splitCharAux_append '-' f3.data _ [] h3,
    splitCharAux_append '-' f4.data _ [] h4, splitCharAux_of_not_mem '-' f5.data [] h5]
  simp

/-- A character other than the comma that avoids every element also avoids
the comma-join. -/
theorem not_mem_joinComma (c : Char) (hc : c ≠ ',') : ∀ l : List String,
    (∀ s ∈ l, c ∉ s.data) → c ∉ (joinComma l).data
  | [], _ => by simp [joinComma]
  | [s], h => by simpa [joinComma] using h s (by simp)
  | s :: s' :: t, h => by
    have hs : c ∉ s.data := h s (by simp)
    have ht := not_mem_joinComma c hc (s' :: t) fun x hx => h x (List.mem_cons_of_mem _ hx)
    simp [joinComma, String.data_append, hs, hc, ht]

/-- Splitting a comma-join on commas recovers the fields when no field
contains a comma. -/
theorem jsSplit_joinComma : ∀ l : List String, l ≠ [] → (∀ s ∈ l, ',' ∉ s.data) →
    jsSplit (joinComma l) ',' = l
  | [], hne, _ => absurd rfl hne
  | [s], _, h => by
    show (splitCharAux ',' s.data []).map String.mk = [s]
    rw [splitCharAux_of_not_mem ',' s.data [] (h s (by simp))]
    simp
  | s :: s' :: t, _, h => by
    have ih := jsSplit_joinComma (s' :: t) (by simp) fun x hx => h x (List.mem_cons_of_mem _ hx)
    show (splitCharAux ',' (joinComma (s :: s' :: t)).data []).map String.mk = _
    have hdata : (joinComma (s :: s' :: t)).data = s.data ++ ',' :: (joinComma (s' :: t)).data := by
      simp [joinComma, String.data_append]
    rw [hdata, splitCharAux_append ',' s.data _ [] (h s (by simp))]
    simpa using ih

/-- Every digit character produced by `Nat.digitChar` below base ten is a
decimal digit. -/
theorem digitChar_isDigit : ∀ k, k < 10 → (Nat.digitChar k).isDigit = true := by decide

/-- All characters produced by `Nat.toDigitsCore` at base ten are decimal
digits. -/
theorem toDigitsCore_digits : ∀ (fuel n : Nat) (ds : List Char),
    (∀ c ∈ ds, c.isDigit = true) → ∀ c ∈ Nat.toDigitsCore 10 fuel n ds, c.isDigit = true := by
  intro fuel
  induction fuel with
  | zero => intro n ds h c hc; rw [Nat.toDigitsCore] at hc; exact h c hc
  | succ f ih =>
    intro n ds h c hc
    rw [Nat.toDigitsCore] at hc
    by_cases h0 : n / 10 = 0
    · simp only [h0, if_true] at hc
      rcases List.mem_cons.mp hc with h1 | h1
      · subst h1; exact digitChar_isDigit _ (Nat.mod_lt _ (by norm_num))
      · exact h c h1
    · simp only [h0, if_false] at hc
      refine ih (n / 10) (Nat.digitChar (n % 10) :: ds) ?_ c hc
      intro d hd
      rcases List.mem_cons.mp hd with h1 | h1
      · subst h1; exact digitChar_isDigit _ (Nat.mod_lt _ (by norm_num))
      · exact h d h1

/-- The decimal representation of a natural number never contains a dash. -/
theorem repr_no_dash (n : Nat) : '-' ∉ (Nat.repr n).data := by
  intro hm
  have h := toDigitsCore_digits (n + 1) n [] (by simp) '-' hm
  simp at h

/-- A successful construction returns exactly the built coin state. -/
theorem mkCoin_ok {env : Env} {p : String} {a : Nat} {n e : String} {c : Coin}
    (h : mkCoin env p a n e = .ok c) : c = buildCoin env p a n e := by
  unfold mkCoin at h
  split at h
  · exact absurd h (by simp)
  · injection h with h; exact h.symm

/-- Optional indexing of a function mapped over a range. -/
theorem getElem?_range_map {α : Type} (f : Nat → α) {j n : Nat} (h : j < n) :
    ((List.range n).map f)[j]? = some (f j) := by
  simp [List.getElem?_map, List.getElem?_range h]

/-- The commitment string of a constructed coin, written out as thefive-field dash join. -/
theorem buildCoin_coinString (env : Env) (p : String) (a : Nat) (n e : String) :
    (buildCoin env p a n e).coinString =
      BANK_STR ++ "-" ++ Nat.repr a ++ "-" ++ env.guid ++ "-" ++
      joinComma (((List.range COIN_RIS_LENGTH).map env.keys).map env.hash) ++ "-" ++
      joinComma (((List.range COIN_RIS_LENGTH).map
        fun i => otpCipher (identPlain p) (env.keys i)).map env.hash) := rfl

/-- In-range `getRis` on a constructed coin returns the key (left) or the
ciphertext (right) for that index. -/
theorem getRis_buildCoin (env : Env) (p : String) (a : Nat) (n e : String) (b : Bool)
    {j : Nat} (hj : j < COIN_RIS_LENGTH) :
    (buildCoin env p a n e).getRis b (Int.ofNat j) = .ok (disclosed env p b j) := by
  have h1 : ¬(Int.ofNat j < 0 ∨ (COIN_RIS_LENGTH : Int) ≤ Int.ofNat j) := by
    simp only [Int.ofNat_eq_coe]
    omega
  unfold Coin.getRis
  rw [if_neg h1]
  cases b
  · show Except.ok (((List.range COIN_RIS_LENGTH).map
      fun i => otpCipher (identPlain p) (env.keys i)).getD j []) = _
    rw [List.getD_eq_getElem?_getD, getElem?_range_map _ hj]
    rfl
  · show Except.ok (((List.range COIN_RIS_LENGTH).map env.keys).getD j []) = _
    rw [List.getD_eq_getElem?_getD, getElem?_range_map _ hj]
    rfl

/-- Parsing a constructed coin recovers exactly the two hash lists embedded
at construction, provided hash outputs are dash- and comma-free and the
guid is dash-free (true of the hex hash and guid of the spec). -/
theorem parseCoin_buildCoin (env : Env) (p : String) (a : Nat) (n e : String)
    (hh : ∀ b, '-' ∉ (env.hash b).data ∧ ',' ∉ (env.hash b).data)
    (hg : '-' ∉ env.guid.data) :
    parseCoin (buildCoin env p a n e).coinString =
      .ok ((buildCoin env p a n e).leftIdent.map env.hash,
           (buildCoin env p a n e).rightIdent.map env.hash) := by
  have hL : ∀ s ∈ ((List.range COIN_RIS_LENGTH).map env.keys).map env.hash,
      '-' ∉ s.data ∧ ',' ∉ s.data := by
    intro s hs; rcases List.mem_map.mp hs with ⟨b, _, rfl⟩; exact hh b
  have hR : ∀ s ∈ ((List.range COIN_RIS_LENGTH).map
      fun i => otpCipher (identPlain p) (env.keys i)).map env.hash,
      '-' ∉ s.data ∧ ',' ∉ s.data := by
    intro s hs; rcases List.mem_map.mp hs with ⟨b, _, rfl⟩; exact hh b
  have hneL : ((List.range COIN_RIS_LENGTH).map env.keys).map env.hash ≠ [] := by
    simp [COIN_RIS_LENGTH]
  have hneR : ((List.range COIN_RIS_LENGTH).map
      fun i => otpCipher (identPlain p) (env.keys i)).map env.hash ≠ [] := by
    simp [COIN_RIS_LENGTH]
  have hsplit := jsSplit_five BANK_STR (Nat.repr a) env.guid
    (joinComma (((List.range COIN_RIS_LENGTH).map env.keys).map env.hash))
    (joinComma (((List.range COIN_RIS_LENGTH).map
      fun i => otpCipher (identPlain p) (env.keys i)).map env.hash))
    (by decide) (repr_no_dash a) hg
    (not_mem_joinComma '-' (by decide) _ fun s hs => (hL s hs).1)
    (not_mem_joinComma '-' (by decide) _ fun s hs => (hR s hs).1)
  rw [buildCoin_coinString]
  unfold parseCoin
  rw [hsplit]
  rw [if_neg (by simp)]
  simp only [List.getElem?_cons_succ, List.getElem?_cons_zero]
  rw [jsSplit_joinComma _ hneL fun s hs => (hL s hs).2,
      jsSplit_joinComma _ hneR fun s hs => (hR s hs).2]
  rfl

/-- The disclosure loop of `acceptCoin` never fails on a constructed coin and
collects the hex-encoded disclosed values in index order. -/
theorem risLoop_ok (env : Env) (p : String) (a : Nat) (n e : String) (flips : Nat → Bool) :
    ∀ L : List Nat, (∀ j ∈ L, j < COIN_RIS_LENGTH) →
    risLoop env.hash flips (buildCoin env p a n e)
      ((buildCoin env p a n e).leftIdent.map env.hash)
      ((buildCoin env p a n e).rightIdent.map env.hash) L =
    .ok (L.map fun j => hexEncode (disclosed env p (flips j) j))
  | [], _ => rfl
  | j :: t, h => by
    have hj : j < COIN_RIS_LENGTH := h j (List.mem_cons_self j t)
    have ih := risLoop_ok env p a n e flips t fun x hx => h x (List.mem_cons_of_mem _ hx)
    have hget := getRis_buildCoin env p a n e (flips j) hj
    have hexp : (if flips j then (buildCoin env p a n e).leftIdent.map env.hash
        else (buildCoin env p a n e).rightIdent.map env.hash)[j]?
        = some (env.hash (disclosed env p (flips j) j)) := by
      cases hf : flips j
      · show ((buildCoin env p a n e).rightIdent.map env.hash)[j]? = _
        rw [List.getElem?_map]
        rw [show (buildCoin env p a n e).rightIdent
            = (List.range COIN_RIS_LENGTH).map (fun i => otpCipher (identPlain p) (env.keys i))
          from rfl]
        rw [getElem?_range_map _ hj]
        simp [disclosed, hf]
      · show ((buildCoin env p a n e).leftIdent.map env.hash)[j]? = _
        rw [List.getElem?_map]
        rw [show (buildCoin env p a n e).leftIdent
            = (List.range COIN_RIS_LENGTH).map env.keys from rfl]
        rw [getElem?_range_map _ hj]
        simp [disclosed, hf]
    simp only [risLoop, hget, hexp, ne_eq, not_true_eq_false, if_false, ih, List.map_cons]

/-- `acceptCoin` on a constructed coin rejects exactly when the verify
primitive rejects; otherwise it returns the report of disclosed values. -/
theorem acceptCoin_buildCoin (vp : Option Nat → String → String → String → Bool)
    (env : Env) (p : String) (a : Nat) (n e : String) (flips : Nat → Bool) (bN bE : String)
    (hh : ∀ b, '-' ∉ (env.hash b).data ∧ ',' ∉ (env.hash b).data)
    (hg : '-' ∉ env.guid.data) :
    acceptCoin vp env.hash flips bN bE (buildCoin env p a n e) =
      if vp (buildCoin env p a n e).signature bN bE (buildCoin env p a n e).coinString = false
      then .error "Invalid coin signature"
      else .ok (report env p flips) := by
  unfold acceptCoin
  by_cases hv : vp (buildCoin env p a n e).signature bN bE (buildCoin env p a n e).coinString
      = false
  · rw [if_pos hv, if_pos hv]
  · rw [if_neg hv, if_neg hv]
    rw [parseCoin_buildCoin env p a n e hh hg]
    exact risLoop_ok env p a n e flips (List.range COIN_RIS_LENGTH)
      (fun j hj => List.mem_range.mp hj)

/-- OTP ciphertext entries are bytes when both inputs are bytes. -/
theorem otpCipher_lt : ∀ pt key : List Nat, (∀ b ∈ pt, b < 256) → (∀ b ∈ key, b < 256) →
    ∀ b ∈ otpCipher pt key, b < 256
  | [], _, _, _ => by simp [otpCipher]
  | _ :: _, [], _, _ => by simp [otpCipher]
  | p :: pt, k :: kt, hp, hk => by
    intro b hb
    simp only [otpCipher, List.zipWith_cons_cons, List.mem_cons] at hb
    rcases hb with h | h
    · subst h
      have h1 : p < 2 ^ 8 := hp p (by simp)
      have h2 : k < 2 ^ 8 := hk k (by simp)
      exact Nat.xor_lt_two_pow h1 h2
    · exact otpCipher_lt pt kt (fun x hx => hp x (by simp [hx]))
        (fun x hx => hk x (by simp [hx])) b h

/-- The identity plaintext is the `IDENT:` tag bytes followed by the
purchaser bytes. -/
theorem identPlain_eq (p : String) :
    identPlain p = [73, 68, 69, 78, 84, 58] ++ p.data.map Char.toNat := by
  show ((IDENT_STR ++ ":" ++ p)).data.map Char.toNat = _
  rw [String.data_append, List.map_append]
  rfl

/-- The identity plaintext is never empty. -/
theorem identPlain_ne_nil (p : String) : identPlain p ≠ [] := by
  rw [identPlain_eq]; simp

/-- The identity plaintext consists of bytes for an ASCII purchaser. -/
theorem identPlain_lt (p : String) (h : ∀ c ∈ p.data, c.toNat < 128) :
    ∀ b ∈ identPlain p, b < 256 := by
  rw [identPlain_eq]
  intro b hb
  rcases List.mem_append.mp hb with h1 | h1
  · simp at h1
    rcases h1 with rfl | rfl | rfl | rfl | rfl | rfl <;> norm_num
  · rcases List.mem_map.mp h1 with ⟨c, hc, rfl⟩
    exact lt_trans (h c hc) (by norm_num)

/-- Both halves of an RIS pair have the plaintext length when the OTP keys do. -/
theorem disclosed_length (env : Env) (p : String)
    (hkeys : ∀ i, i < COIN_RIS_LENGTH →
      (env.keys i).length = (identPlain p).length ∧ ∀ b ∈ env.keys i, b < 256)
    (b : Bool) {j : Nat} (hj : j < COIN_RIS_LENGTH) :
    (disclosed env p b j).length = (identPlain p).length := by
  cases b
  · show (otpCipher (identPlain p) (env.keys j)).length = _
    rw [otpCipher, List.length_zipWith, (hkeys j hj).1, min_self]
  · exact (hkeys j hj).1

/-- Disclosed values consist of bytes. -/
theorem disclosed_lt (env : Env) (p : String) (hascii : ∀ c ∈ p.data, c.toNat < 128)
    (hkeys : ∀ i, i < COIN_RIS_LENGTH →
      (env.keys i).length = (identPlain p).length ∧ ∀ b ∈ env.keys i, b < 256)
    (b : Bool) {j : Nat} (hj : j < COIN_RIS_LENGTH) :
    ∀ x ∈ disclosed env p b j, x < 256 := by
  cases b
  · show ∀ x ∈ otpCipher (identPlain p) (env.keys j), x < 256
    exact otpCipher_lt _ _ (identPlain_lt p hascii) (hkeys j hj).2
  · exact (hkeys j hj).2

/-- An all-zero decode never carries the `IDENT` tag. -/
theorem startsWith_zeros (l : List Nat) (hl : l ≠ []) :
    startsWithStr (bytesToStr (l.map fun _ => 0)) IDENT_STR = false := by
  cases l with
  | nil => exact absurd rfl hl
  | cons b t =>
    show startsWithData (Char.ofNat 0 :: (t.map fun _ => 0).map Char.ofNat)
      ('I' :: ['D', 'E', 'N', 'T']) = false
    exact startsWithData_ne _ _ _ _ (by decide)

/-- The identity plaintext string carries the `IDENT` tag. -/
theorem startsWith_identColon (p : String) :
    startsWithStr (IDENT_STR ++ ":" ++ p) IDENT_STR = true := by
  show startsWithData (IDENT_STR ++ ":" ++ p).data IDENT_STR.data = true
  rw [String.data_append, String.data_append, List.append_assoc]
  exact startsWithData_append _ _

/-- Splitting the identity plaintext on the colon yields the tag and the
purchaser, for colon-free purchasers. -/
theorem jsSplit_identColon (p : String) (hp : ':' ∉ p.data) :
    jsSplit (IDENT_STR ++ ":" ++ p) ':' = [IDENT_STR, p] := by
  show (splitCharAux ':' (IDENT_STR ++ ":" ++ p).data []).map String.mk = _
  have hdata : (IDENT_STR ++ ":" ++ p).data = ['I', 'D', 'E', 'N', 'T'] ++ ':' :: p.data := by
    rw [String.data_append]
    rfl
  rw [hdata, splitCharAux_append ':' ['I', 'D', 'E', 'N', 'T'] p.data [] (by decide),
    splitCharAux_of_not_mem ':' p.data [] hp]
  rfl

/-- The reconciliation loop over two Accept reports of one coin reports the
purchaser as soon as some scanned index has opposite disclosures: indices
where both sides disclosed the same value decode to zeroes and are
skipped, and an opposite index decodes to the identity plaintext. -/
theorem cheaterLoop_report (env : Env) (p : String) (s1 s2 : Nat → Bool)
    (hp : ':' ∉ p.data) (hascii : ∀ c ∈ p.data, c.toNat < 128)
    (hkeys : ∀ i, i < COIN_RIS_LENGTH →
      (env.keys i).length = (identPlain p).length ∧ ∀ b ∈ env.keys i, b < 256) :
    ∀ L : List Nat, (∀ j ∈ L, j < COIN_RIS_LENGTH) → (∃ i ∈ L, s1 i ≠ s2 i) →
    cheaterLoop (report env p s1) (report env p s2) L = .purchaserCheated (some p)
  | [], _, hex => by
    rcases hex with ⟨i, hi, _⟩
    exact absurd hi (List.not_mem_nil i)
  | j :: t, hb, hex => by
    have hj : j < COIN_RIS_LENGTH := hb j (List.mem_cons_self j t)
    have get1 : (report env p s1)[j]? = some (hexEncode (disclosed env p (s1 j) j)) :=
      getElem?_range_map _ hj
    have get2 : (report env p s2)[j]? = some (hexEncode (disclosed env p (s2 j) j)) :=
      getElem?_range_map _ hj
    have hd1 := hexDecode_hexEncode (disclosed env p (s1 j) j)
      (disclosed_lt env p hascii hkeys (s1 j) hj)
    have hd2 := hexDecode_hexEncode (disclosed env p (s2 j) j)
      (disclosed_lt env p hascii hkeys (s2 j) hj)
    have hl1 := disclosed_length env p hkeys (s1 j) hj
    have hl2 := disclosed_length env p hkeys (s2 j) hj
    simp only [cheaterLoop, get1, get2, hd1, hd2]
    rw [if_neg (by rw [hl1, hl2]; exact fun hne => hne rfl)]
    by_cases hss : s1 j = s2 j
    · have htail : ∃ i ∈ t, s1 i ≠ s2 i := by
        rcases hex with ⟨i, hi, hne⟩
        rcases List.mem_cons.mp hi with rfl | hit
        · exact absurd hss hne
        · exact ⟨i, hit, hne⟩
      rw [hss, decryptOTP_self,
        startsWith_zeros _ (by rw [← List.length_pos_iff_ne_nil, hl2]
                               exact List.length_pos_of_ne_nil (identPlain_ne_nil p))]
      simp only [Bool.false_eq_true, if_false]
      exact cheaterLoop_report env p s1 s2 hp hascii hkeys t
        (fun x hx => hb x (List.mem_cons_of_mem _ hx)) htail
    · have hdec : decryptOTP (disclosed env p (s1 j) j) (disclosed env p (s2 j) j)
          = identPlain p := by
        cases h1 : s1 j
        · have h2 : s2 j = true := by
            cases h2 : s2 j
            · rw [h1, h2] at hss; exact absurd rfl hss
            · rfl
          rw [h2]
          show decryptOTP (otpCipher (identPlain p) (env.keys j)) (env.keys j) = _
          exact decryptOTP_cipher_key _ _ (hkeys j hj).1
        · have h2 : s2 j = false := by
            cases h2 : s2 j
            · rfl
            · rw [h1, h2] at hss; exact absurd rfl hss
          rw [h2]
          show decryptOTP (env.keys j) (otpCipher (identPlain p) (env.keys j)) = _
          exact decryptOTP_key_cipher _ _ (hkeys j hj).1
      rw [hdec]
      rw [show bytesToStr (identPlain p) = IDENT_STR ++ ":" ++ p
        from bytesToStr_strToBytes (IDENT_STR ++ ":" ++ p)]
      rw [startsWith_identColon]
      simp only [if_true]
      rw [jsSplit_identColon p hp]
      rfl

/-- When every index is skipped (missing entry, length mismatch, or decode
without the `IDENT` tag), the reconciliation loop returns no cheater. -/
theorem cheaterLoop_skip_all (r1 r2 : List String)
    (hskip : ∀ (i : Nat) (a b : String), r1[i]? = some a → r2[i]? = some b →
      (hexDecode a).length ≠ (hexDecode b).length ∨
      startsWithStr (bytesToStr (decryptOTP (hexDecode a) (hexDecode b))) IDENT_STR = false) :
    ∀ L : List Nat, cheaterLoop r1 r2 L = .undetermined
  | [] => rfl
  | i :: t => by
    have ih := cheaterLoop_skip_all r1 r2 hskip t
    cases h1 : r1[i]? with
    | none => simp only [cheaterLoop, h1]; exact ih
    | some a =>
      cases h2 : r2[i]? with
      | none => simp only [cheaterLoop, h1, h2]; exact ih
      | some b =>
        simp only [cheaterLoop, h1, h2]
        by_cases hlen : (hexDecode a).length ≠ (hexDecode b).length
        · rw [if_pos hlen]; exact ih
        · rw [if_neg hlen]
          rcases hskip i a b h1 h2 with hl | hsw
          · exact absurd hl hlen
          · rw [hsw]
            simp only [Bool.false_eq_true, if_false]
            exact ih

/-- Splitting a constructed coin commitment string on the dash yields exactly
the five fields. -/
theorem jsSplit_buildCoin (env : Env) (p : String) (a : Nat) (n e : String)
    (hh : ∀ b, '-' ∉ (env.hash b).data ∧ ',' ∉ (env.hash b).data)
    (hg : '-' ∉ env.guid.data) :
    jsSplit (buildCoin env p a n e).coinString '-' =
      [BANK_STR, Nat.repr a, env.guid,
       joinComma ((buildCoin env p a n e).leftIdent.map env.hash),
       joinComma ((buildCoin env p a n e).rightIdent.map env.hash)] := by
  have hL : ∀ s ∈ ((List.range COIN_RIS_LENGTH).map env.keys).map env.hash, '-' ∉ s.data := by
    intro s hs; rcases List.mem_map.mp hs with ⟨b, _, rfl⟩; exact (hh b).1
  have hR : ∀ s ∈ ((List.range COIN_RIS_LENGTH).map
      fun i => otpCipher (identPlain p) (env.keys i)).map env.hash, '-' ∉ s.data := by
    intro s hs; rcases List.mem_map.mp hs with ⟨b, _, rfl⟩; exact (hh b).1
  rw [buildCoin_coinString]
  exact jsSplit_five BANK_STR (Nat.repr a) env.guid _ _
    (by decide) (repr_no_dash a) hg
    (not_mem_joinComma '-' (by decide) _ hL)
    (not_mem_joinComma '-' (by decide) _ hR)

/-- C2: for every guid and every pair of reports that are element-wise
identical (same length, same bytes at every index), Reconcile outputs
MerchantCheated — in particular on two copies of the same report. -/
theorem claim2_holds (guid : String) (r1 r2 : List String)
    (hlen : r1.length = r2.length)
    (helem : ∀ (i : Nat) (h1 : i < r1.length) (h2 : i < r2.length),
      r1.get ⟨i, h1⟩ = r2.get ⟨i, h2⟩) :
    determineCheater guid r1 r2 = .merchantCheated := by
  have heq : r1 = r2 := List.ext_get hlen helem
  unfold determineCheater
  rw [if_pos heq]

/-- C2 witness: a concrete identical pair of reports yields MerchantCheated. -/
theorem claim2_witness : determineCheater "g" ["aa"] ["aa"] = .merchantCheated :=
  claim2_holds "g" ["aa"] ["aa"] rfl (fun _ _ _ => rfl)

/-- C3: the dash delimiter occurs in no field of a constructed coin's
commitment string, so splitting Serialize() on it recovers exactly the
five fields bank-tag, amount, guid, joined left hashes, joined right
hashes; consequently the hash lists Accept parses out of Serialize()
equal the hash lists embedded at construction. -/
theorem claim3_holds (env : Env) (p : String) (a : Nat) (n e : String) (coin : Coin)
    (hh : ∀ b, '-' ∉ (env.hash b).data ∧ ',' ∉ (env.hash b).data)
    (hg : '-' ∉ env.guid.data)
    (hmk : mkCoin env p a n e = .ok coin) :
    jsSplit coin.coinString '-' =
      [BANK_STR, Nat.repr a, coin.guid, joinComma (coin.leftIdent.map env.hash),
       joinComma (coin.rightIdent.map env.hash)]
    ∧ parseCoin coin.coinString =
      .ok (coin.leftIdent.map env.hash, coin.rightIdent.map env.hash) := by
  have hc := mkCoin_ok hmk
  subst hc
  exact ⟨jsSplit_buildCoin env p a n e hh hg, parseCoin_buildCoin env p a n e hh hg⟩

/-- C3 witness: parsing a concrete constructed coin returns its embedded
hash lists. -/
theorem claim3_witness :
    parseCoin aliceCoin.coinString =
      .ok (aliceCoin.leftIdent.map aliceEnv.hash, aliceCoin.rightIdent.map aliceEnv.hash) :=
  (claim3_holds aliceEnv "alice" 20 "55" "3" aliceCoin
    (fun _ => ⟨show '-' ∉ ("00" : String).data by decide,
               show ',' ∉ ("00" : String).data by decide⟩) (by decide) rfl).2

/-- C4: for every constructed coin and every i < K, the i-th element of the
parsed left hash list is the hash of GetRis(left, i), and the i-th
element of the parsed right hash list is the hash of GetRis(right, i):
the identity lists and the embedded hash lists stay in sync. -/
theorem claim4_holds (env : Env) (p : String) (a : Nat) (n e : String) (coin : Coin)
    (lrs : List String × List String)
    (hh : ∀ b, '-' ∉ (env.hash b).data ∧ ',' ∉ (env.hash b).data)
    (hg : '-' ∉ env.guid.data)
    (hmk : mkCoin env p a n e = .ok coin)
    (hparse : parseCoin coin.coinString = .ok lrs) :
    ∀ i : Nat, i < COIN_RIS_LENGTH →
      ∃ lv rv, coin.getRis true (Int.ofNat i) = .ok lv
        ∧ coin.getRis false (Int.ofNat i) = .ok rv
        ∧ lrs.1[i]? = some (env.hash lv) ∧ lrs.2[i]? = some (env.hash rv) := by
  have hc := mkCoin_ok hmk
  subst hc
  have hp2 := parseCoin_buildCoin env p a n e hh hg
  rw [hparse] at hp2
  injection hp2 with hp2
  subst hp2
  intro i hi
  refine ⟨env.keys i, otpCipher (identPlain p) (env.keys i),
    getRis_buildCoin env p a n e true hi, getRis_buildCoin env p a n e false hi, ?_, ?_⟩
  · show ((buildCoin env p a n e).leftIdent.map env.hash)[i]? = _
    rw [List.getElem?_map,
      show (buildCoin env p a n e).leftIdent = (List.range COIN_RIS_LENGTH).map env.keys
        from rfl,
      getElem?_range_map _ hi]
    rfl
  · show ((buildCoin env p a n e).rightIdent.map env.hash)[i]? = _
    rw [List.getElem?_map,
      show (buildCoin env p a n e).rightIdent = (List.range COIN_RIS_LENGTH).map
        (fun j => otpCipher (identPlain p) (env.keys j)) from rfl,
      getElem?_range_map _ hi]
    rfl

set_option maxRecDepth 40000 in
/-- C4 witness: the sync property at index 0 of a concrete coin. -/
theorem claim4_witness :
    ∃ lv rv, aliceCoin.getRis true (Int.ofNat 0) = .ok lv
      ∧ aliceCoin.getRis false (Int.ofNat 0) = .ok rv
      ∧ (aliceCoin.leftIdent.map aliceEnv.hash)[0]? = some (aliceEnv.hash lv)
      ∧ (aliceCoin.rightIdent.map aliceEnv.hash)[0]? = some (aliceEnv.hash rv) :=
  claim4_holds aliceEnv "alice" 20 "55" "3" aliceCoin
    (aliceCoin.leftIdent.map aliceEnv.hash, aliceCoin.rightIdent.map aliceEnv.hash)
    (fun _ => ⟨show '-' ∉ ("00" : String).data by decide,
               show ',' ∉ ("00" : String).data by decide⟩) (by decide) rfl
    rfl 0 (by decide)

/-- C5 (amended): after a successful Unblind the signature field holds the
unblind result and every other field — in particular blindingFactor and
blinded — is retained unchanged.  Amended from C5: the code does not
clear blindingFactor or the blinded value; they remain set after
unblinding. -/
theorem claim5_holds (u : Nat → String → Option Nat → Nat) (c c' : Coin)
    (h : Coin.unblind u c = .ok c') :
    ∃ s, c.signature = some s
      ∧ c' = { c with signature := some (u s c.n c.blindingFactor) } := by
  unfold Coin.unblind at h
  cases hs : c.signature with
  | none => rw [hs] at h; exact absurd h (by simp)
  | some s0 =>
    rw [hs] at h
    injection h with h
    exact ⟨s0, rfl, h.symm⟩

set_option maxRecDepth 40000 in
/-- C5 counterexample: a concrete coin whose unblind succeeds while
blindingFactor and blinded are still set afterwards, refuting the claim
that unblind consumes and clears them. -/
theorem claim5_counterexample :
    mkCoin aliceEnv "alice" 20 "55" "3" = .ok aliceCoin
    ∧ Coin.unblind (fun s _ _ => s + 1) { aliceCoin with signature := some 5 }
        = .ok { aliceCoin with signature := some 6 }
    ∧ ({ aliceCoin with signature := some 6 } : Coin).blindingFactor ≠ none
    ∧ ({ aliceCoin with signature := some 6 } : Coin).blinded ≠ none := by
  refine ⟨rfl, rfl, by decide, by decide⟩

set_option maxRecDepth 40000 in
/-- C5 witness: the amended frame property at a concrete coin. -/
theorem claim5_witness :
    ∃ s, ({ aliceCoin with signature := some 5 } : Coin).signature = some s
      ∧ ({ aliceCoin with signature := some 6 } : Coin) =
        { ({ aliceCoin with signature := some 5 } : Coin) with
          signature := some (s + 1) } := by
  have h := claim5_holds (fun s _ _ => s + 1) { aliceCoin with signature := some 5 }
    { aliceCoin with signature := some 6 } rfl
  exact h

/-- C6: Accept fails with 'Invalid coin signature' exactly when the verify
primitive rejects coin.signature against Serialize() under the bank's
key; when the primitive accepts (correctly signed, untampered coin),
Accept never fails and returns the K-length report whose i-th element is
the hex-encoded disclosed leftIdent[i] or rightIdent[i]. -/
theorem claim6_holds (env : Env) (p : String) (a : Nat) (n e : String) (coin : Coin)
    (vp : Option Nat → String → String → String → Bool) (flips : Nat → Bool) (bN bE : String)
    (hh : ∀ b, '-' ∉ (env.hash b).data ∧ ',' ∉ (env.hash b).data)
    (hg : '-' ∉ env.guid.data)
    (hmk : mkCoin env p a n e = .ok coin) :
    (acceptCoin vp env.hash flips bN bE coin = .error "Invalid coin signature"
      ↔ vp coin.signature bN bE coin.coinString = false)
    ∧ (vp coin.signature bN bE coin.coinString = true →
        acceptCoin vp env.hash flips bN bE coin = .ok (report env p flips)
        ∧ (report env p flips).length = COIN_RIS_LENGTH
        ∧ ∀ i, i < COIN_RIS_LENGTH →
            (report env p flips)[i]? = some (hexEncode
              ((if flips i then coin.leftIdent else coin.rightIdent).getD i []))) := by
  have hc := mkCoin_ok hmk
  subst hc
  have hacc := acceptCoin_buildCoin vp env p a n e flips bN bE hh hg
  constructor
  · constructor
    · intro herr
      by_cases hv : vp (buildCoin env p a n e).signature bN bE
          (buildCoin env p a n e).coinString = false
      · exact hv
      · rw [hacc, if_neg hv] at herr
        exact absurd herr (by simp)
    · intro hv
      rw [hacc, if_pos hv]
  · intro hv
    have hvf : ¬(vp (buildCoin env p a n e).signature bN bE
        (buildCoin env p a n e).coinString = false) := by rw [hv]; simp
    refine ⟨by rw [hacc, if_neg hvf], by simp [report], ?_⟩
    intro i hi
    rw [show report env p flips = (List.range COIN_RIS_LENGTH).map
      (fun j => hexEncode (disclosed env p (flips j) j)) from rfl, getElem?_range_map _ hi]
    cases hf : flips i
    · simp only [Bool.false_eq_true, if_false]
      rw [show (buildCoin env p a n e).rightIdent = (List.range COIN_RIS_LENGTH).map
        (fun j => otpCipher (identPlain p) (env.keys j)) from rfl,
        List.getD_eq_getElem?_getD, getElem?_range_map _ hi]
      simp [disclosed, hf]
    · simp only [if_true]
      rw [show (buildCoin env p a n e).leftIdent = (List.range COIN_RIS_LENGTH).map env.keys
        from rfl, List.getD_eq_getElem?_getD, getElem?_range_map _ hi]
      simp [disclosed, hf]

set_option maxRecDepth 40000 in
/-- C6 witness: a concrete accepting run returning the all-left report. -/
theorem claim6_witness :
    acceptCoin (fun _ _ _ _ => true) aliceEnv.hash (fun _ => true) "55" "3" aliceCoin
      = .ok (report aliceEnv "alice" (fun _ => true)) :=
  ((claim6_holds aliceEnv "alice" 20 "55" "3" aliceCoin (fun _ _ _ _ => true)
    (fun _ => true) "55" "3"
    (fun _ => ⟨show '-' ∉ ("00" : String).data by decide,
               show ',' ∉ ("00" : String).data by decide⟩) (by decide) rfl).2 rfl).1

/-- C7: Reconcile never raises an error — for every guid and reports of any
lengths and contents it returns exactly one of MerchantCheated,
PurchaserCheated, Undetermined — and when the reports differ but every
index is skipped (missing entry, unequal decoded lengths, or decode not
starting with IDENT), the outcome is Undetermined. -/
theorem claim7_holds (guid : String) (r1 r2 : List String) :
    (determineCheater guid r1 r2 = .merchantCheated
      ∨ (∃ o, determineCheater guid r1 r2 = .purchaserCheated o)
      ∨ determineCheater guid r1 r2 = .undetermined)
    ∧ (r1 ≠ r2 →
        (∀ (i : Nat) (a b : String), r1[i]? = some a → r2[i]? = some b →
          (hexDecode a).length ≠ (hexDecode b).length ∨
          startsWithStr (bytesToStr (decryptOTP (hexDecode a) (hexDecode b))) IDENT_STR
            = false) →
        determineCheater guid r1 r2 = .undetermined) := by
  constructor
  · cases h : determineCheater guid r1 r2 with
    | merchantCheated => exact Or.inl rfl
    | purchaserCheated o => exact Or.inr (Or.inl ⟨o, rfl⟩)
    | undetermined => exact Or.inr (Or.inr rfl)
  · intro hne hskip
    unfold determineCheater
    rw [if_neg hne]
    exact cheaterLoop_skip_all r1 r2 hskip _

/-- C7 witness: two differing one-entry reports with no IDENT decode give
Undetermined. -/
theorem claim7_witness : determineCheater "g" ["00"] ["01"] = .undetermined :=
  (claim7_holds "g" ["00"] ["01"]).2 (by decide)
    (fun i a b ha hb => by
      match i with
      | 0 =>
        rw [show (["00"] : List String)[0]? = some "00" from rfl] at ha
        rw [show (["01"] : List String)[0]? = some "01" from rfl] at hb
        injection ha with ha
        injection hb with hb
        subst ha
        subst hb
        right
        decide
      | i + 1 =>
        rw [show (["00"] : List String)[i + 1]? = none from rfl] at ha
        exact Option.noConfusion ha)

/-- C8: for every constructed coin, GetRis(side, i) returns leftIdent[i]
when side selects left and rightIdent[i] otherwise, and fails with the
out-of-range error exactly when i is outside [0, K); in particular
i = -1 and i = K = 20 fail. -/
theorem claim8_holds (env : Env) (p : String) (a : Nat) (n e : String) (coin : Coin)
    (hmk : mkCoin env p a n e = .ok coin) (b : Bool) (i : Int) :
    (0 ≤ i ∧ i < (COIN_RIS_LENGTH : Int) →
      coin.getRis b i = .ok ((if b then coin.leftIdent else coin.rightIdent).getD i.toNat []))
    ∧ (i < 0 ∨ (COIN_RIS_LENGTH : Int) ≤ i →
      coin.getRis b i = .error ("RIS index out of bounds: " ++ toString i))
    ∧ coin.getRis b (-1) = .error "RIS index out of bounds: -1"
    ∧ coin.getRis b (20 : Int) = .error "RIS index out of bounds: 20" := by
  refine ⟨?_, ?_, ?_, ?_⟩
  · rintro ⟨h1, h2⟩
    unfold Coin.getRis
    rw [if_neg (by omega)]
  · intro h
    unfold Coin.getRis
    rw [if_pos h]
  · unfold Coin.getRis
    rw [if_pos (Or.inl (by norm_num))]
    exact congrArg Except.error (by decide)
  · unfold Coin.getRis
    rw [if_pos (Or.inr (by norm_num [COIN_RIS_LENGTH]))]
    exact congrArg Except.error (by decide)

/-- C8 witness: GetRis at -1 and at 20 on a concrete coin fail with the
out-of-bounds error. -/
theorem claim8_witness :
    aliceCoin.getRis true (-1) = .error "RIS index out of bounds: -1"
    ∧ aliceCoin.getRis true (20 : Int) = .error "RIS index out of bounds: 20" :=
  ⟨(claim8_holds aliceEnv "alice" 20 "55" "3" aliceCoin rfl true (-1)).2.2.1,
   (claim8_holds aliceEnv "alice" 20 "55" "3" aliceCoin rfl true (20 : Int)).2.2.2⟩

/-- C9: construction fails with the 'Missing required coin parameters' error
exactly when one of the four arguments is empty or zero; in the failing
case no coin state is produced, so guid generation, commitment
generation and blinding are never reached. -/
theorem claim9_holds (env : Env) (p : String) (a : Nat) (n e : String) :
    (p = "" ∨ a = 0 ∨ n = "" ∨ e = "" →
      mkCoin env p a n e = .error "Missing required coin parameters")
    ∧ (mkCoin env p a n e = .error "Missing required coin parameters" →
      p = "" ∨ a = 0 ∨ n = "" ∨ e = "") := by
  constructor
  · intro h
    unfold mkCoin
    rw [if_pos h]
  · intro h
    by_cases hc : p = "" ∨ a = 0 ∨ n = "" ∨ e = ""
    · exact hc
    · unfold mkCoin at h
      rw [if_neg hc] at h
      exact absurd h (by simp)

/-- C9 witness: an empty purchaser makes construction fail. -/
theorem claim9_witness :
    mkCoin aliceEnv "" 20 "55" "3" = .error "Missing required coin parameters" :=
  (claim9_holds aliceEnv "" 20 "55" "3").1 (Or.inl rfl)

/-- C10: after a successful Unblind the signature field is non-empty, so a
second Unblind does not raise the no-signature error: it re-applies the
unblinding transformation to the already-final signature (there is no
guard against double-unblinding). -/
theorem claim10_holds (u : Nat → String → Option Nat → Nat) (c c' : Coin)
    (h : Coin.unblind u c = .ok c') :
    ∃ s, c'.signature = some s
      ∧ Coin.unblind u c' = .ok { c' with signature := some (u s c'.n c'.blindingFactor) } := by
  unfold Coin.unblind at h
  cases hs : c.signature with
  | none => rw [hs] at h; exact absurd h (by simp)
  | some s0 =>
    rw [hs] at h
    injection h with h
    subst h
    exact ⟨u s0 c.n c.blindingFactor, rfl, rfl⟩

set_option maxRecDepth 40000 in
/-- C10 witness: a second unblind of a concrete coin succeeds and bumps the
signature again. -/
theorem claim10_witness :
    ∃ s, ({ aliceCoin with signature := some 6 } : Coin).signature = some s
      ∧ Coin.unblind (fun s _ _ => s + 1) { aliceCoin with signature := some 6 }
        = .ok { ({ aliceCoin with signature := some 6 } : Coin) with
            signature := some (s + 1) } := by
  have h := claim10_holds (fun s _ _ => s + 1) { aliceCoin with signature := some 5 }
    { aliceCoin with signature := some 6 } rfl
  exact h

/-- C1 (amended): for a coin constructed with purchaser identity p that is
ASCII and contains no colon, if two Accept reports for the coin are not
identical and some index has opposite disclosures (one report the OTP
key, the other the OTP ciphertext), then Reconcile outputs
PurchaserCheated with identity exactly p, found at the first well-formed
decode.  Amended from C1: when p itself contains a colon the code
reports only the part of p before the first colon, because the identity
is extracted as split(':')[1]. -/
theorem claim1_holds (env : Env) (p : String) (a : Nat) (n e : String)
    (vp : Option Nat → String → String → String → Bool) (bN bE : String)
    (s1 s2 : Nat → Bool) (guid : String) (coin : Coin) (r1 r2 : List String)
    (hh : ∀ b, '-' ∉ (env.hash b).data ∧ ',' ∉ (env.hash b).data)
    (hg : '-' ∉ env.guid.data)
    (hp : ':' ∉ p.data) (hascii : ∀ c ∈ p.data, c.toNat < 128)
    (hkeys : ∀ i, i < COIN_RIS_LENGTH →
      (env.keys i).length = (identPlain p).length ∧ ∀ b ∈ env.keys i, b < 256)
    (hmk : mkCoin env p a n e = .ok coin)
    (hr1 : acceptCoin vp env.hash s1 bN bE coin = .ok r1)
    (hr2 : acceptCoin vp env.hash s2 bN bE coin = .ok r2)
    (hne : r1 ≠ r2)
    (hopp : ∃ i, i < COIN_RIS_LENGTH ∧ s1 i ≠ s2 i) :
    determineCheater guid r1 r2 = .purchaserCheated (some p) := by
  have hc := mkCoin_ok hmk
  subst hc
  rw [acceptCoin_buildCoin vp env p a n e s1 bN bE hh hg] at hr1
  rw [acceptCoin_buildCoin vp env p a n e s2 bN bE hh hg] at hr2
  by_cases hv : vp (buildCoin env p a n e).signature bN bE
      (buildCoin env p a n e).coinString = false
  · rw [if_pos hv] at hr1
    exact absurd hr1 (by simp)
  · rw [if_neg hv] at hr1
    rw [if_neg hv] at hr2
    injection hr1 with hr1
    injection hr2 with hr2
    subst hr1
    subst hr2
    unfold determineCheater
    rw [if_neg hne]
    rw [show (report env p s1).length = COIN_RIS_LENGTH by simp [report]]
    rcases hopp with ⟨i, hi, hine⟩
    exact cheaterLoop_report env p s1 s2 hp hascii hkeys (List.range COIN_RIS_LENGTH)
      (fun j hj => List.mem_range.mp hj) ⟨i, List.mem_range.mpr hi, hine⟩

set_option maxRecDepth 200000 in
/-- C1 counterexample: for the purchaser identity "a:b", an all-left and an
all-right Accept report of the same coin are not identical and disclose
opposite halves at index 0, yet Reconcile outputs PurchaserCheated with
identity "a", not the constructed identity "a:b" — refuting C1 as
stated. -/
theorem claim1_counterexample :
    mkCoin zeroKeyEnv "a:b" 20 "55" "3" = .ok cexCoin
    ∧ acceptCoin (fun _ _ _ _ => true) zeroKeyEnv.hash (fun _ => true) "55" "3" cexCoin
        = .ok cexR1
    ∧ acceptCoin (fun _ _ _ _ => true) zeroKeyEnv.hash (fun _ => false) "55" "3" cexCoin
        = .ok cexR2
    ∧ cexR1 ≠ cexR2
    ∧ cexR1[0]? = some (hexEncode (cexCoin.leftIdent.getD 0 []))
    ∧ cexR2[0]? = some (hexEncode (cexCoin.rightIdent.getD 0 []))
    ∧ determineCheater cexCoin.guid cexR1 cexR2 = .purchaserCheated (some "a")
    ∧ determineCheater cexCoin.guid cexR1 cexR2 ≠ .purchaserCheated (some "a:b") := by
  refine ⟨rfl, rfl, rfl, by decide, by decide, by decide, by decide, by decide⟩

set_option maxRecDepth 200000 in
/-- C1 witness: a concrete run with purchaser alice where Reconcile reports
PurchaserCheated alice. -/
theorem claim1_witness :
    determineCheater "g" (report aliceEnv "alice" (fun _ => true))
      (report aliceEnv "alice" (fun _ => false)) = .purchaserCheated (some "alice") :=
  claim1_holds aliceEnv "alice" 20 "55" "3" (fun _ _ _ _ => true) "55" "3"
    (fun _ => true) (fun _ => false) "g" (buildCoin aliceEnv "alice" 20 "55" "3")
    (report aliceEnv "alice" (fun _ => true)) (report aliceEnv "alice" (fun _ => false))
    (fun _ => ⟨show '-' ∉ ("00" : String).data by decide,
               show ',' ∉ ("00" : String).data by decide⟩)
    (by decide) (by decide) (by decide)
    (fun i _ => ⟨show (List.replicate 11 1).length = (identPlain "alice").length by decide,
                 show ∀ b ∈ List.replicate 11 1, b < 256 by decide⟩)
    rfl rfl rfl (by decide) ⟨0, by decide, by decide⟩
